import Mathlib

/-!
Verification of the coach-ai repository (Obsidian daily-note coaching tools).

This file shallowly embeds, in Lean, the program logic that the checked
claims are about:

* `src/coach_ai/task_selection.py` — `select_tasks_for_today` and the three
  bucket selectors (`_select_critical_tasks`, `_select_important_tasks`,
  `_select_quick_wins`);
* `src/coach_ai/daily_notes.py` — `_fuzzy_match_task` (including the
  `difflib.SequenceMatcher` similarity score it calls) and the write
  discipline of `_create_daily_note_with_tasks`;
* `src/coach_ai/obsidian.py` — `_extract_section`, `_parse_all_sections`,
  `_extract_tasks`, `write_to_section`, and the temp-file-then-rename write
  discipline of the vault's mutating methods.

Modelling conventions, used throughout:

* Python strings are Lean `String`s; the regular expressions of the source
  are unfolded into character-level functions on `List Char`.  The Python
  `\s` class and `str.strip()` whitespace are modelled by the ASCII
  whitespace characters (space, tab, newline, carriage return, vertical tab,
  form feed); `\w` is modelled by ASCII alphanumerics plus underscore; the
  sources only ever feed ASCII-or-emoji markdown through these paths, where
  the ASCII reading of the character classes is exact.
* Python floats (the similarity threshold comparison) are modelled by exact
  rationals; for the string lengths arising here the rounded float
  comparisons coincide with the exact rational ones.
* Python's stable `list.sort` is modelled by a stable insertion sort, which
  agrees with any stable sort for the total preorders used as keys.
* SQLite rows of the `todos` table are the `Row` structure; a `SELECT`
  with `WHERE status = 'active' ORDER BY created_at ASC` is modelled as a
  filter followed by a stable sort on `created_at`.
-/

/-! ## Python string primitives -/

/-- The characters of Python's `\s` class and of `str.strip()`, restricted to
ASCII: space, tab, newline, carriage return, vertical tab, form feed. -/
def isPyWS (c : Char) : Bool :=
  c = ' ' || c = '\t' || c = '\n' || c = '\r' || c = '\x0b' || c = '\x0c'

/-- Python's `\w` class (ASCII part): letters, digits, underscore. -/
def isWordChar (c : Char) : Bool :=
  c.isAlpha || c.isDigit || c = '_'

/-- A character admissible in the tail `[-\w]*` of a tag. -/
def isTagChar (c : Char) : Bool :=
  isWordChar c || c = '-'

/-- Right-strip whitespace from a character list. -/
def rstripChars (cs : List Char) : List Char :=
  (cs.reverse.dropWhile isPyWS).reverse

/-- Python `str.strip()` on a character list. -/
def pyStripChars (cs : List Char) : List Char :=
  rstripChars (cs.dropWhile isPyWS)

/-- Python `str.strip()` on strings. -/
def pyStrip (s : String) : String :=
  String.mk (pyStripChars s.toList)

/-- Substring test on character lists: `needle` occurs contiguously in
`hay`.  Models Python's `needle in hay` for strings. -/
def listInfixOf (needle : List Char) : List Char → Bool
  | [] => needle.isEmpty
  | c :: rest => needle.isPrefixOf (c :: rest) || listInfixOf needle rest

/-- Python's `needle in hay` substring test. -/
def strIn (needle hay : String) : Bool :=
  listInfixOf needle.toList hay.toList

/-- ASCII lowercasing of one character (Python `str.lower()` restricted to
ASCII). -/
def lowerChar (c : Char) : Char :=
  if 'A' ≤ c && c ≤ 'Z' then Char.ofNat (c.toNat + 32) else c

/-- Python `str.lower()` (ASCII model). -/
def pyLower (s : String) : String :=
  String.mk (s.toList.map lowerChar)

/-- Split on newline characters, Python `str.split("\n")` (an empty string
yields one empty line). -/
def splitLines : List Char → List (List Char)
  | [] => [[]]
  | c :: rest =>
    match splitLines rest with
    | l :: ls => if c = '\n' then [] :: l :: ls else (c :: l) :: ls
    | [] => [[c]]

/-- Join with newline separators, Python `"\n".join(...)`. -/
def joinLines : List (List Char) → List Char
  | [] => []
  | [l] => l
  | l :: rest => l ++ '\n' :: joinLines rest

/-- The lines of a string, `content.split("\n")`. -/
def strLines (s : String) : List String :=
  (splitLines s.toList).map String.mk

/-- Python `"\n".join(lines)`. -/
def strJoin (lines : List String) : String :=
  String.mk (joinLines (lines.map String.toList))

/-- Join lines with newlines, then strip — the `"\n".join(...).strip()`
idiom of the source. -/
def joinStrip (lines : List String) : String :=
  pyStrip (strJoin lines)

/-! ## Stable sort (model of Python's stable `list.sort`) -/

/-- Insert `x` into `l`, keeping strictly-smaller elements (under `le`)
before `x` and placing `x` before elements equivalent to it, as a stable
sort must when `x` originates earlier in the input. -/
def stableInsert (le : α → α → Bool) (x : α) : List α → List α
  | [] => [x]
  | y :: ys => if le y x && !(le x y) then y :: stableInsert le x ys else x :: y :: ys

/-- Stable insertion sort; models Python's stable `list.sort(key=...)`
(which agrees with every stable sort on a total preorder). -/
def pySort (le : α → α → Bool) : List α → List α
  | [] => []
  | x :: xs => stableInsert le x (pySort le xs)

theorem mem_stableInsert (le : α → α → Bool) (x : α) (l : List α) (a : α) :
    a ∈ stableInsert le x l ↔ a = x ∨ a ∈ l := by
  induction l with
  | nil => simp [stableInsert]
  | cons y ys ih =>
    simp only [stableInsert]
    split
    · simp only [List.mem_cons, ih]
      tauto
    · simp [List.mem_cons]

theorem mem_pySort (le : α → α → Bool) (l : List α) (a : α) :
    a ∈ pySort le l ↔ a ∈ l := by
  induction l with
  | nil => simp [pySort]
  | cons x xs ih => simp [pySort, mem_stableInsert, ih]

theorem length_stableInsert (le : α → α → Bool) (x : α) (l : List α) :
    (stableInsert le x l).length = l.length + 1 := by
  induction l with
  | nil => simp [stableInsert]
  | cons y ys ih =>
    simp only [stableInsert]
    split <;> simp [ih]

theorem length_pySort (le : α → α → Bool) (l : List α) :
    (pySort le l).length = l.length := by
  induction l with
  | nil => rfl
  | cons x xs ih => simp [pySort, length_stableInsert, ih]

/-! ## Task selection (`task_selection.py`)

`Row` is a row of the SQLite `todos` table as fetched by
`select_tasks_for_today` (columns `id, title, priority, notes,
time_estimate, skipped_count, last_scheduled, created_at`, plus the
`status` column the `WHERE` clause inspects).  `NULL`able columns are
`Option`s.  The schema declares `skipped_count INTEGER DEFAULT 0`; where the
source uses a row's `skipped_count` as a sort key (`t.get("skipped_count", 0)`)
we read a `NULL` as `0`. -/

structure Row where
  id : Int
  title : String
  priority : String
  notes : Option String
  time_estimate : Option Int
  skipped_count : Option Int
  created_at : String
  status : String
deriving DecidableEq, Repr

/-- A calendar date (the `target_date` argument). -/
structure Date where
  year : Nat
  month : Nat
  day : Nat
deriving DecidableEq, Repr

/-- Zero-padded two-digit rendering, as `strftime` `%m` / `%d` produce. -/
def pad2 (n : Nat) : String :=
  if n < 10 then "0" ++ toString n else toString n

/-- Rendering `strftime("%B")`: full month name. -/
def monthName : Nat → String
  | 1 => "January" | 2 => "February" | 3 => "March" | 4 => "April"
  | 5 => "May" | 6 => "June" | 7 => "July" | 8 => "August"
  | 9 => "September" | 10 => "October" | 11 => "November" | 12 => "December"
  | _ => ""

/-- Rendering `strftime("%b")`: abbreviated month name. -/
def monthAbbr : Nat → String
  | 1 => "Jan" | 2 => "Feb" | 3 => "Mar" | 4 => "Apr"
  | 5 => "May" | 6 => "Jun" | 7 => "Jul" | 8 => "Aug"
  | 9 => "Sep" | 10 => "Oct" | 11 => "Nov" | 12 => "Dec"
  | _ => ""

/-- The four deadline renderings of `_select_critical_tasks`
(`%Y-%m-%d`, `%m/%d`, `%B %d`, `%b %d`); years are assumed four-digit. -/
def datePatterns (d : Date) : List String :=
  [ toString d.year ++ "-" ++ pad2 d.month ++ "-" ++ pad2 d.day
  , pad2 d.month ++ "/" ++ pad2 d.day
  , monthName d.month ++ " " ++ pad2 d.day
  , monthAbbr d.month ++ " " ++ pad2 d.day ]

/-- The expression `todo.get("notes") or ""`. -/
def rowNotes (t : Row) : String := t.notes.getD ""

/-- Sort key `t.get("skipped_count", 0)` (a `NULL` read as `0`). -/
def skipLe (a b : Row) : Bool :=
  a.skipped_count.getD 0 ≤ b.skipped_count.getD 0

/-- Lexicographic code-point comparison of character lists (Python string
`<=`). -/
def charListLe : List Char → List Char → Bool
  | [], _ => true
  | _ :: _, [] => false
  | a :: as, b :: bs => if a = b then charListLe as bs else decide (a < b)

/-- Sort key `t["created_at"]` (string comparison, as in Python). -/
def createdLe (a b : Row) : Bool :=
  charListLe a.created_at.toList b.created_at.toList

/-- Sort key `t["time_estimate"]` (only applied to rows the time filter
kept, whose estimate is non-`NULL`). -/
def timeLe (a b : Row) : Bool :=
  a.time_estimate.getD 0 ≤ b.time_estimate.getD 0

/-- Model of `_select_critical_tasks(todos, target_date)`: first todo whose notes
mention the target date in one of the four renderings; else first todo
whose notes contain `[Deadline]`; else the least-skipped high-priority
todo; else none. -/
def selectCriticalTasks (todos : List Row) (target : Date) : List Row :=
  match todos.find? (fun t => (datePatterns target).any (fun p => strIn p (rowNotes t))) with
  | some t => [t]
  | none =>
    match todos.find? (fun t => strIn "[Deadline]" (rowNotes t)) with
    | some t => [t]
    | none =>
      match pySort skipLe (todos.filter (fun t => t.priority == "high")) with
      | t :: _ => [t]
      | [] => []

/-- Model of `_select_important_tasks(todos, exclude, max_important)`: high-priority
first (least skipped), then `[Sprint Work]`/`[Management]` tagged, then
medium priority oldest first; each stage excludes already-picked ids. -/
def selectImportantTasks (todos exclude : List Row) (maxImportant : Nat) : List Row :=
  let excludeIds := exclude.map (fun t => t.id)
  let available := todos.filter (fun t => !(excludeIds.contains t.id))
  let important := (pySort skipLe (available.filter (fun t => t.priority == "high"))).take maxImportant
  if maxImportant ≤ important.length then important.take maxImportant
  else
    let excludeIds2 := excludeIds ++ important.map (fun t => t.id)
    let available2 := available.filter (fun t => !(excludeIds2.contains t.id))
    let sprint := available2.filter
      (fun t => ["[Sprint Work]", "[Management]"].any (fun tag => strIn tag (rowNotes t)))
    let important2 := important ++ sprint.take (maxImportant - important.length)
    if maxImportant ≤ important2.length then important2.take maxImportant
    else
      let excludeIds3 := excludeIds2 ++ important2.map (fun t => t.id)
      let available3 := available2.filter (fun t => !(excludeIds3.contains t.id))
      let med := pySort createdLe (available3.filter (fun t => t.priority == "medium"))
      (important2 ++ med.take (maxImportant - important2.length)).take maxImportant

/-- The quick-win time filter `t.get("time_estimate") and t["time_estimate"] <= 30`
(`NULL` and `0` are falsy in Python, so those rows are excluded). -/
def timeOk (t : Row) : Bool :=
  match t.time_estimate with
  | some v => !(v == 0) && v ≤ 30
  | none => false

/-- Model of `_select_quick_wins(todos, exclude, max_quick)`: `[Quick Win]` tagged
first, then short time estimates (ascending), then low priority oldest
first; each stage excludes already-picked ids. -/
def selectQuickWins (todos exclude : List Row) (maxQuick : Nat) : List Row :=
  let excludeIds := exclude.map (fun t => t.id)
  let available := todos.filter (fun t => !(excludeIds.contains t.id))
  let quick := (available.filter (fun t => strIn "[Quick Win]" (rowNotes t))).take maxQuick
  if maxQuick ≤ quick.length then quick.take maxQuick
  else
    let excludeIds2 := excludeIds ++ quick.map (fun t => t.id)
    let available2 := available.filter (fun t => !(excludeIds2.contains t.id))
    let timeBased := pySort timeLe (available2.filter timeOk)
    let quick2 := quick ++ timeBased.take (maxQuick - quick.length)
    if maxQuick ≤ quick2.length then quick2.take maxQuick
    else
      let excludeIds3 := excludeIds2 ++ quick2.map (fun t => t.id)
      let available3 := available2.filter (fun t => !(excludeIds3.contains t.id))
      let low := pySort createdLe (available3.filter (fun t => t.priority == "low"))
      (quick2 ++ low.take (maxQuick - quick2.length)).take maxQuick

/-- The result dictionary of `select_tasks_for_today`. -/
structure SelectResult where
  critical : List Row
  important : List Row
  quick_wins : List Row
  backlog_count : Nat
deriving DecidableEq, Repr

/-- The fetch
`SELECT ... FROM todos WHERE status = 'active' ORDER BY created_at ASC`. -/
def fetchActiveTodos (rows : List Row) : List Row :=
  pySort createdLe (rows.filter (fun r => r.status == "active"))

/-- The backlog-hell filter `(t["skipped_count"] or 0) < 5`. -/
def eligibleTodos (rows : List Row) : List Row :=
  (fetchActiveTodos rows).filter (fun t => t.skipped_count.getD 0 < 5)

/-- The three buckets before the global `max_tasks` trimming. -/
def rawBuckets (rows : List Row) (target : Date) : List Row × List Row × List Row :=
  let todos := eligibleTodos rows
  let critical := selectCriticalTasks todos target
  let important := selectImportantTasks todos critical 2
  let quickWins := selectQuickWins todos (critical ++ important) 3
  (critical, important, quickWins)

/-- Model of `select_tasks_for_today(db, target_date, max_tasks)`.  `rows` stands for
the `todos` table, given in `created_at` order; the `UPDATE` of
`last_scheduled` is a side effect not reflected in the returned value.
`max(0, a - b)` of the source is truncated `Nat` subtraction here. -/
def selectTasksForToday (rows : List Row) (target : Date) (maxTasks : Nat) : SelectResult :=
  let allTodos := fetchActiveTodos rows
  if allTodos.isEmpty then
    { critical := [], important := [], quick_wins := [], backlog_count := 0 }
  else
    let (critical, important, quickWins) := rawBuckets rows target
    let selectedLen := critical.length + important.length + quickWins.length
    if maxTasks < selectedLen then
      let quickWins2 := quickWins.take (maxTasks - critical.length - important.length)
      let important2 :=
        if maxTasks < critical.length + important.length then
          important.take (maxTasks - critical.length)
        else important
      { critical := critical, important := important2, quick_wins := quickWins2,
        backlog_count := allTodos.length }
    else
      { critical := critical, important := important, quick_wins := quickWins,
        backlog_count := allTodos.length }

/-! ## Fuzzy checkbox matching (`daily_notes.py::_fuzzy_match_task`)

`difflib.SequenceMatcher(None, a, b).ratio()` is `2*M/(len(a)+len(b))`
where `M` totals the sizes of the matching blocks found by
Ratcliff-Obershelp: take the longest matching block (earliest in `a`, then
earliest in `b`, among the longest), and recurse on the pieces to its left
and to its right.  `_calculate_ratio` returns `1.0` when both strings are
empty.  Autojunk only triggers for `len(b) >= 200`, beyond anything this
code path sees, and is not modelled.  Floats are modelled as exact
rationals. -/

/-- Length of the longest common extension: the number of leading positions
where the two lists agree. -/
def lce : List Char → List Char → Nat
  | a :: as, b :: bs => if a = b then lce as bs + 1 else 0
  | _, _ => 0

/-- All candidate matching blocks `(i, j, k)`: start `i` in `a`, start `j`
in `b`, and `k` the length of the common run at those starts. -/
def blockCands (a b : List Char) : List (Nat × Nat × Nat) :=
  (List.range (a.length + 1)).flatMap
    (fun i => (List.range (b.length + 1)).map
      (fun j => (i, j, lce (a.drop i) (b.drop j))))

/-- The `find_longest_match` preference order: larger `k` wins; ties go to the
smaller `i`, then the smaller `j`. -/
def betterBlock (c best : Nat × Nat × Nat) : Bool :=
  decide (best.2.2 < c.2.2) ||
    (c.2.2 == best.2.2 &&
      (decide (c.1 < best.1) || (c.1 == best.1 && decide (c.2.1 < best.2.1))))

/-- The matching block `find_longest_match` selects ( `(0,0,0)` when nothing
matches). -/
def bestBlock (a b : List Char) : Nat × Nat × Nat :=
  (blockCands a b).foldl (fun best c => if betterBlock c best then c else best) (0, 0, 0)

/-- Total matched characters `M` of the Ratcliff-Obershelp recursion,
with explicit fuel so the recursion is structural.  Every recursive call
strictly shrinks `a.length + b.length` (the selected block is non-empty),
so fuel `a.length + b.length` is never exhausted: if the fuel reaches `0`
both pieces are empty and `0` is the exact answer there anyway. -/
def matchTotalF : Nat → List Char → List Char → Nat
  | 0, _, _ => 0
  | fuel + 1, a, b =>
    match bestBlock a b with
    | (i, j, k) =>
      if k = 0 then 0
      else
        k + matchTotalF fuel (a.take i) (b.take j) +
          matchTotalF fuel (a.drop (i + k)) (b.drop (j + k))

/-- Total matched characters `M` for the two lists. -/
def matchTotal (a b : List Char) : Nat :=
  matchTotalF (a.length + b.length) a b

/-- Model of `SequenceMatcher.ratio()` as an exact fraction `(numerator, denominator)`
over `Nat` (`2*M / (len(a)+len(b))`; `1/1` when both strings are empty).
The denominator is always positive. -/
def simParts (a b : List Char) : Nat × Nat :=
  if a.length + b.length = 0 then (1, 1)
  else (2 * matchTotal a b, a.length + b.length)

/-- Strict comparison of two nonnegative fractions with positive
denominators, by cross multiplication. -/
def fracLt (x y : Nat × Nat) : Bool :=
  x.1 * y.2 < y.1 * x.2

/-- Model of `SequenceMatcher.ratio()` as an exact rational. -/
def simScore (a b : List Char) : ℚ :=
  ((simParts a b).1 : ℚ) / ((simParts a b).2 : ℚ)

/-- The candidate loop of `_fuzzy_match_task`, carrying `best_ratio` and
`best_match_id`: per candidate, return at once on exact equality or
substring containment (either direction); otherwise update the running
best similarity (strictly greater scores replace); after the loop, return
the best id only if its score exceeds `0.7`. -/
def fuzzyGo (cb : String) : List (Int × String) → Nat × Nat → Option Int → Option Int
  | [], best, bestId => if fracLt (7, 10) best then bestId else none
  | (tid, title) :: rest, best, bestId =>
    let tl := pyStrip (pyLower title)
    if cb == tl then some tid
    else if strIn cb tl || strIn tl cb then some tid
    else
      let r := simParts cb.toList tl.toList
      if fracLt best r then fuzzyGo cb rest r (some tid) else fuzzyGo cb rest best bestId

/-- Model of `_fuzzy_match_task(checkbox_text, todos)`; the todo dict is its
insertion-ordered `(id, title)` items. -/
def fuzzyMatchTask (checkbox : String) (todos : List (Int × String)) : Option Int :=
  fuzzyGo (pyStrip (pyLower checkbox)) todos (0, 1) none

/-- A candidate title that short-circuits the loop for a given (already
lowercased and stripped) checkbox text: case-insensitive exact equality or
substring containment in either direction. -/
def exactOrSub (cb : String) (p : Int × String) : Bool :=
  let tl := pyStrip (pyLower p.2)
  cb == tl || strIn cb tl || strIn tl cb

/-! ## Markdown sections (`obsidian.py`)

The heading regular expressions of the source,
`^##\s+(?:[\U0001F300-\U0001F9FF]\s+)?...`, are unfolded line by line.
Section names passed to `_extract_section` / `write_to_section` are
assumed non-empty without leading or trailing whitespace (as every call
site's are), which lets the greedy `\s+` runs be read as maximal munches. -/

/-- A pictographic glyph of the class `[\U0001F300-\U0001F9FF]`. -/
def isGlyph (c : Char) : Bool :=
  0x1F300 ≤ c.toNat && c.toNat ≤ 0x1F9FF

/-- Case-insensitive match of the remaining heading characters against
`name` followed by `\s*$`: after right-stripping whitespace the rest must
equal `name` up to ASCII case. -/
def nameMatches (name : String) (cs : List Char) : Bool :=
  ((rstripChars cs).map lowerChar) == (name.toList.map lowerChar)

/-- Match of the heading characters after `^##\s+` against
`(?:[\U0001F300-\U0001F9FF]\s+)?name\s*$`: optionally skip one glyph and
following whitespace (backtracking to the glyph-less reading when that
fails), then require `name`. -/
def nameTailMatches (name : String) (cs : List Char) : Bool :=
  match cs with
  | g :: rest =>
    (isGlyph g &&
      (match rest with
       | d :: _ => isPyWS d && nameMatches name (rest.dropWhile isPyWS)
       | [] => false))
    || nameMatches name cs
  | [] => nameMatches name []

/-- Does `line` match `^##\s+(?:[\U0001F300-\U0001F9FF]\s+)?name\s*$`
(case-insensitively)?  This is the heading pattern of `_extract_section`
and the `section_pattern` of `write_to_section`. -/
def matchesSectionHeading (name : String) (line : String) : Bool :=
  match line.toList with
  | '#' :: '#' :: c :: rest => isPyWS c && nameTailMatches name ((c :: rest).dropWhile isPyWS)
  | _ => false

/-- The lookahead `(?=^##\s|\Z)` terminating an extracted section: a later
line starting with `##` and a whitespace character ends the block; a bare
`##` line also ends it when followed by a newline (the newline is the
`\s`), i.e. when it is not the very last line. -/
def sectionBoundary (l : String) (rest : List String) : Bool :=
  match l.toList with
  | '#' :: '#' :: c :: _ => isPyWS c
  | ['#', '#'] => !rest.isEmpty
  | _ => false

/-- The lines of a section body: everything up to the next boundary. -/
def sectionBlock : List String → List String
  | [] => []
  | l :: rest => if sectionBoundary l rest then [] else l :: sectionBlock rest

/-- Model of `_extract_section(content, section_name)` on pre-split lines: the body
after the first matching heading, stripped.  A heading on the very last
line has no following character for the pattern's `(.+?)` to consume, so
the match fails there (and no later occurrence can exist). -/
def extractSectionLines (lines : List String) (name : String) : Option String :=
  match lines.findIdx? (matchesSectionHeading name) with
  | none => none
  | some i =>
    if lines.length ≤ i + 1 then none
    else some (joinStrip (sectionBlock (lines.drop (i + 1))))

/-- Model of `_extract_section(content, section_name)`. -/
def extractSection (content name : String) : Option String :=
  extractSectionLines (strLines content) name

/-- The capture `group(1).strip()` of the `_parse_all_sections` heading pattern
`^##\s+(?:[\U0001F300-\U0001F9FF]\s+)?(.+)$` (case-sensitive), `none` when
the line is no heading.  Pathological all-whitespace tails make the
backtracking `\s+` cede a whitespace character to `(.+)`, producing the
(falsy) name `""`. -/
def headingName (line : String) : Option String :=
  match line.toList with
  | '#' :: '#' :: c :: rest =>
    if isPyWS c then
      match (c :: rest).dropWhile isPyWS with
      | [] => some ""
      | g :: u2 =>
        if isGlyph g then
          let w := u2.takeWhile isPyWS
          let v := u2.drop w.length
          if w.isEmpty then some (String.mk (pyStripChars (g :: u2)))
          else if !v.isEmpty then some (String.mk (pyStripChars v))
          else if 2 ≤ w.length then some ""
          else some (String.mk (pyStripChars (g :: u2)))
        else some (String.mk (pyStripChars (g :: u2)))
    else none
  | _ => none

/-- Python truthiness of the `current_section` variable (`None` and `""`
are falsy). -/
def truthyStr : Option String → Bool
  | none => false
  | some s => !s.toList.isEmpty

/-- Assignment `sections[k] = v` on an insertion-ordered dict. -/
def dictInsert (k v : String) : List (String × String) → List (String × String)
  | [] => [(k, v)]
  | (k2, v2) :: rest => if k2 == k then (k, v) :: rest else (k2, v2) :: dictInsert k v rest

/-- Dict lookup `sections[k]`. -/
def dictLookup (k : String) : List (String × String) → Option String
  | [] => none
  | (k2, v2) :: rest => if k2 == k then some v2 else dictLookup k rest

/-- The line loop of `_parse_all_sections`: `cur` is `current_section`,
`acc` is `current_content`, `secs` the dict built so far.  On a heading the
previous section is saved (if truthy) and a new one starts; other lines
accumulate into the current section when one is open. -/
def parseAllAux : List String → Option String → List String → List (String × String) →
    List (String × String)
  | [], cur, acc, secs =>
    if truthyStr cur then dictInsert (cur.getD "") (joinStrip acc) secs else secs
  | line :: rest, cur, acc, secs =>
    match headingName line with
    | some nm =>
      let secs2 := if truthyStr cur then dictInsert (cur.getD "") (joinStrip acc) secs else secs
      parseAllAux rest (some nm) [] secs2
    | none =>
      if truthyStr cur then parseAllAux rest cur (acc ++ [line]) secs
      else parseAllAux rest cur acc secs

/-- Model of `_parse_all_sections(content)`. -/
def parseAllSections (content : String) : List (String × String) :=
  parseAllAux (strLines content) none [] []

/-! ## `write_to_section` -/

/-- The test `not lines[i].strip().startswith("## ")`: the inner collection loop of
`write_to_section` keeps taking lines until one starts (after stripping)
with `## `. -/
def notBlockEnd (l : String) : Bool :=
  match pyStripChars l.toList with
  | '#' :: '#' :: ' ' :: _ => false
  | _ => true

/-- The replacement block `write_to_section` writes under the heading:
with `append`, the existing lines, then a blank separator when the last
existing line is non-blank, then the new content; without `append`, just
the new content. -/
def appendBlock (app : Bool) (content : String) (existing : List String) : List String :=
  if app then
    existing ++
      (match existing.getLast? with
       | some last => if (pyStripChars last.toList).isEmpty then [content] else ["", content]
       | none => [content])
  else [content]

/-- The scan of `write_to_section`: mode `none` looks for the target
heading (`section_pattern`); mode `some acc` is inside the matched
section collecting its existing lines, until a `## `-starting line or the
end, whereupon the new block is emitted and scanning resumes (later
matching headings are processed again, as the source loop does). -/
def wtsGo (name c : String) (app : Bool) : List String → Option (List String) →
    List String × Bool
  | [], none => ([], false)
  | [], some acc => (appendBlock app c acc, true)
  | l :: rest, none =>
    if matchesSectionHeading name l then
      let res := wtsGo name c app rest (some [])
      (l :: res.1, true)
    else
      let res := wtsGo name c app rest none
      (l :: res.1, res.2)
  | l :: rest, some acc =>
    if notBlockEnd l then wtsGo name c app rest (some (acc ++ [l]))
    else if matchesSectionHeading name l then
      let res := wtsGo name c app rest (some [])
      (appendBlock app c acc ++ l :: res.1, true)
    else
      let res := wtsGo name c app rest none
      (appendBlock app c acc ++ l :: res.1, true)

/-- Model of `write_to_section` on the note body's lines; the `Bool` is the
`section_found` flag. -/
def writeToSectionLines (name c : String) (app : Bool) (lines : List String) :
    List String × Bool :=
  wtsGo name c app lines none

/-- Model of `write_to_section(date, section_name, content, append)` on the note
body: `none` models the `False` return (nothing written), `some newBody`
the successful rewrite. -/
def writeToSection (body name c : String) (app : Bool) : Option String :=
  let res := writeToSectionLines name c app (strLines body)
  if res.2 then some (strJoin res.1) else none

/-! ## Checkbox tasks (`obsidian.py::_extract_tasks`) -/

/-- Model of `re.match(r"^- \[([ x])\] (.+)$", line.strip())`: on success, whether
the box is checked and the raw task text (`group(2)`, non-empty). -/
def parseCheckbox (line : String) : Option (Bool × String) :=
  match pyStripChars line.toList with
  | '-' :: ' ' :: '[' :: c :: ']' :: ' ' :: rest =>
    if (c == ' ' || c == 'x') && !rest.isEmpty then some (c == 'x', String.mk rest)
    else none
  | _ => none

/-- Model of `re.findall(r"#(\w+[-\w]*)", text)` with explicit fuel (the scan
advances at least one character per step, so `text.length` fuel always
suffices): at each `#` whose successor is a word character, capture the
maximal `\w+[-\w]*` run and resume after it; otherwise advance one
character. -/
def findTagsF : Nat → List Char → List String
  | 0, _ => []
  | _ + 1, [] => []
  | fuel + 1, c :: cs =>
    if c = '#' then
      if (cs.takeWhile isWordChar).isEmpty then findTagsF fuel cs
      else
        let w1 := cs.takeWhile isWordChar
        let r := cs.drop w1.length
        let w2 := r.takeWhile isTagChar
        String.mk (w1 ++ w2) :: findTagsF fuel (r.drop w2.length)
    else findTagsF fuel cs

/-- The `#tag` captures of a string. -/
def findTags (s : String) : List String :=
  findTagsF s.toList.length s.toList

/-- One match attempt of `re.sub(r"\s*#\w+[-\w]*", "", ...)` at the current
position: maximal `\s*`, a `#`, a non-empty maximal `\w+`, a maximal
`[-\w]*`; returns the remainder after the match, or `none` when the
pattern does not match here. -/
def tagMatchRest (cs : List Char) : Option (List Char) :=
  match cs.dropWhile isPyWS with
  | x :: r2 =>
    if x = '#' then
      match r2 with
      | d :: _ =>
        if isWordChar d then some ((r2.dropWhile isWordChar).dropWhile isTagChar) else none
      | [] => none
    else none
  | [] => none

/-- The scan of `re.sub(r"\s*#\w+[-\w]*", "", text)` with explicit fuel
(every step strictly shrinks the list, so `text.length` fuel always
suffices): drop matches, keep other characters. -/
def subTagsF : Nat → List Char → List Char
  | 0, cs => cs
  | _ + 1, [] => []
  | fuel + 1, c :: cs =>
    match tagMatchRest (c :: cs) with
    | some rest => subTagsF fuel rest
    | none => c :: subTagsF fuel cs

/-- Model of `re.sub(r"\s*#\w+[-\w]*", "", text)`. -/
def subTagsChars (cs : List Char) : List Char :=
  subTagsF cs.length cs

/-- One extracted checkbox task (the dict `_extract_tasks` appends). -/
structure TaskLine where
  text : String
  completed : Bool
  priority : String
  tags : List String
  raw : String
deriving DecidableEq, Repr

/-- The task built from one qualifying line: `task_text = group(2).strip()`,
tags from `task_text`, priority derived from the tags, display text with
tag tokens removed and stripped. -/
def taskOfParsed (line : String) (comp : Bool) (rest : String) : TaskLine :=
  let taskText := pyStrip rest
  let tags := findTags taskText
  let priority :=
    if tags.contains "high-priority" || tags.contains "urgent" then "high"
    else if tags.contains "low-priority" then "low"
    else "medium"
  { text := pyStrip (String.mk (subTagsChars taskText.toList))
  , completed := comp
  , priority := priority
  , tags := tags
  , raw := pyStrip line }

/-- The per-line step: a `Task-Line` for a checkbox line, nothing
otherwise. -/
def taskOfLine (line : String) : Option TaskLine :=
  match parseCheckbox line with
  | some (comp, rest) => some (taskOfParsed line comp rest)
  | none => none

/-- The checkbox loop of `_extract_tasks` over a section text's lines
(tasks are appended in line order; non-matching lines are skipped). -/
def extractTasksFromText (sectionText : String) : List TaskLine :=
  (strLines sectionText).foldl
    (fun acc l =>
      match taskOfLine l with
      | some t => acc ++ [t]
      | none => acc)
    []

/-- Model of `_extract_tasks(content)`: the loop applied to the `Tasks` section
(falling back to `✅ Tasks`); Python's falsiness makes an empty extracted
section fall through exactly like a missing one. -/
def extractTasksPy (content : String) : List TaskLine :=
  let s1 := extractSection content "Tasks"
  let s := if truthyStr s1 then s1 else extractSection content "✅ Tasks"
  if truthyStr s then extractTasksFromText (s.getD "") else []

/-! ## Write discipline of the mutating note operations

Each mutating operation's file-system effects are abstracted to the
sequence of write actions it performs against the note's canonical path
and its temporary sibling (`note_path.with_suffix(".tmp")`, same
directory).  `create_daily_note`, `write_to_section` and `add_section`
(and the other `ObsidianVault` mutators) write the full new content to
the temp path and then rename it over the canonical path;
`daily_notes._create_daily_note_with_tasks` opens the canonical path
directly. -/

inductive FsAct where
  | writeTemp (content : String)
  | renameTempToCanon
  | writeCanon (content : String)
deriving DecidableEq, Repr

/-- The two files that matter: the canonical note path and its `.tmp`
sibling (`none` = absent). -/
structure FsState where
  canonical : Option String
  temp : Option String
deriving DecidableEq, Repr

/-- Effect of one completed action. -/
def applyAct : FsAct → FsState → FsState
  | .writeTemp s, st => ⟨st.canonical, some s⟩
  | .renameTempToCanon, st => ⟨st.temp, none⟩
  | .writeCanon s, st => ⟨some s, st.temp⟩

/-- Run a whole plan. -/
def runPlan (plan : List FsAct) (st : FsState) : FsState :=
  plan.foldl (fun s a => applyAct a s) st

/-- Effect of an action that fails midway: a write may leave arbitrary
partial `junk` in its target file; a rename is atomic, so a failed rename
leaves the state untouched. -/
def tornAct : FsAct → String → FsState → FsState
  | .writeTemp _, junk, st => ⟨st.canonical, some junk⟩
  | .renameTempToCanon, _, st => st
  | .writeCanon _, junk, st => ⟨some junk, st.temp⟩

/-- States observable if execution crashes strictly before the plan
completes: some prefix ran, and the next action either did not start or
was torn partway. -/
def CrashReachable (plan : List FsAct) (st0 st' : FsState) : Prop :=
  ∃ k, ∃ h : k < plan.length, ∃ junk,
    st' = runPlan (plan.take k) st0 ∨
    st' = tornAct (plan.get ⟨k, h⟩) junk (runPlan (plan.take k) st0)

/-- Plan of `ObsidianVault.create_daily_note`: temp write of the full rendered
note, then rename (`obsidian.py` lines 260-265). -/
def createDailyNotePlan (content : String) : List FsAct :=
  [.writeTemp content, .renameTempToCanon]

/-- Plan of `ObsidianVault.add_section`: temp write, then rename (`obsidian.py`
lines 647-652). -/
def addSectionPlan (content : String) : List FsAct :=
  [.writeTemp content, .renameTempToCanon]

/-- Plan of `ObsidianVault.write_to_section` (both replace and append): when the
section exists, temp write of the rewritten body, then rename; when it
does not, no file is touched (`obsidian.py` lines 605-617). -/
def writeToSectionPlan (body name c : String) (app : Bool) : List FsAct :=
  match writeToSection body name c app with
  | some newBody => [.writeTemp newBody, .renameTempToCanon]
  | none => []

/-- Plan of `daily_notes._create_daily_note_with_tasks`: a single direct write of
the rendered note to the canonical path (`daily_notes.py` lines 770-776) —
no temporary file is involved. -/
def createDailyNoteWithTasksPlan (content : String) : List FsAct :=
  [.writeCanon content]

/-! ## Selector lemmas -/

theorem selectCriticalTasks_subset {todos : List Row} {d : Date} {t : Row}
    (h : t ∈ selectCriticalTasks todos d) : t ∈ todos := by
  unfold selectCriticalTasks at h
  split at h
  · next heq => simp at h; exact h ▸ List.mem_of_find?_eq_some heq
  · split at h
    · next heq => simp at h; exact h ▸ List.mem_of_find?_eq_some heq
    · split at h
      · next x rest heq =>
        simp at h
        subst h
        have : t ∈ pySort skipLe (todos.filter (fun t => t.priority == "high")) := by
          rw [heq]; exact List.mem_cons_self _ _
        rw [mem_pySort] at this
        exact (List.mem_filter.mp this).1
      · simp at h

theorem selectCriticalTasks_length (todos : List Row) (d : Date) :
    (selectCriticalTasks todos d).length ≤ 1 := by
  unfold selectCriticalTasks
  split
  · simp
  · split
    · simp
    · split <;> simp

theorem selectImportantTasks_subset {todos exclude : List Row} {m : Nat} {t : Row}
    (h : t ∈ selectImportantTasks todos exclude m) : t ∈ todos := by
  simp only [selectImportantTasks] at h
  split at h
  · have := List.mem_of_mem_take h
    have := List.mem_of_mem_take this
    rw [mem_pySort] at this
    exact (List.mem_filter.mp (List.mem_filter.mp this).1).1
  · split at h
    · rcases List.mem_append.mp (List.mem_of_mem_take h) with h2 | h2
      · have := List.mem_of_mem_take h2
        rw [mem_pySort] at this
        exact (List.mem_filter.mp (List.mem_filter.mp this).1).1
      · have := List.mem_filter.mp (List.mem_of_mem_take h2)
        exact (List.mem_filter.mp (List.mem_filter.mp this.1).1).1
    · rcases List.mem_append.mp (List.mem_of_mem_take h) with h2 | h2
      · rcases List.mem_append.mp h2 with h3 | h3
        · have := List.mem_of_mem_take h3
          rw [mem_pySort] at this
          exact (List.mem_filter.mp (List.mem_filter.mp this).1).1
        · have := List.mem_filter.mp (List.mem_of_mem_take h3)
          exact (List.mem_filter.mp (List.mem_filter.mp this.1).1).1
      · have := List.mem_of_mem_take h2
        rw [mem_pySort] at this
        have := (List.mem_filter.mp this).1
        have := (List.mem_filter.mp this).1
        have := (List.mem_filter.mp this).1
        exact (List.mem_filter.mp this).1

theorem selectImportantTasks_length (todos exclude : List Row) (m : Nat) :
    (selectImportantTasks todos exclude m).length ≤ m := by
  simp only [selectImportantTasks]
  split
  · exact List.length_take_le _ _
  · split
    · exact List.length_take_le _ _
    · exact List.length_take_le _ _

theorem selectQuickWins_subset {todos exclude : List Row} {m : Nat} {t : Row}
    (h : t ∈ selectQuickWins todos exclude m) : t ∈ todos := by
  simp only [selectQuickWins] at h
  split at h
  · have := List.mem_of_mem_take h
    have := List.mem_of_mem_take this
    exact (List.mem_filter.mp (List.mem_filter.mp this).1).1
  · split at h
    · rcases List.mem_append.mp (List.mem_of_mem_take h) with h2 | h2
      · have := List.mem_of_mem_take h2
        exact (List.mem_filter.mp (List.mem_filter.mp this).1).1
      · have := List.mem_of_mem_take h2
        rw [mem_pySort] at this
        have := (List.mem_filter.mp this).1
        exact (List.mem_filter.mp (List.mem_filter.mp this).1).1
    · rcases List.mem_append.mp (List.mem_of_mem_take h) with h2 | h2
      · rcases List.mem_append.mp h2 with h3 | h3
        · have := List.mem_of_mem_take h3
          exact (List.mem_filter.mp (List.mem_filter.mp this).1).1
        · have := List.mem_of_mem_take h3
          rw [mem_pySort] at this
          have := (List.mem_filter.mp this).1
          exact (List.mem_filter.mp (List.mem_filter.mp this).1).1
      · have := List.mem_of_mem_take h2
        rw [mem_pySort] at this
        have := (List.mem_filter.mp this).1
        have := (List.mem_filter.mp this).1
        have := (List.mem_filter.mp this).1
        exact (List.mem_filter.mp this).1

theorem selectQuickWins_length (todos exclude : List Row) (m : Nat) :
    (selectQuickWins todos exclude m).length ≤ m := by
  simp only [selectQuickWins]
  split
  · exact List.length_take_le _ _
  · split
    · exact List.length_take_le _ _
    · exact List.length_take_le _ _

/-- Characterization of `select_tasks_for_today` in terms of the raw
buckets and the trimming arithmetic. -/
theorem selectTasksForToday_eq (rows : List Row) (d : Date) (N : Nat) :
    selectTasksForToday rows d N =
      if (fetchActiveTodos rows).isEmpty then ⟨[], [], [], 0⟩
      else
        if N < (rawBuckets rows d).1.length + (rawBuckets rows d).2.1.length +
            (rawBuckets rows d).2.2.length then
          ⟨(rawBuckets rows d).1,
            (if N < (rawBuckets rows d).1.length + (rawBuckets rows d).2.1.length then
              (rawBuckets rows d).2.1.take (N - (rawBuckets rows d).1.length)
            else (rawBuckets rows d).2.1),
            (rawBuckets rows d).2.2.take
              (N - (rawBuckets rows d).1.length - (rawBuckets rows d).2.1.length),
            (fetchActiveTodos rows).length⟩
        else
          ⟨(rawBuckets rows d).1, (rawBuckets rows d).2.1, (rawBuckets rows d).2.2,
            (fetchActiveTodos rows).length⟩ := by
  rfl

theorem mem_selectTasksForToday {rows : List Row} {d : Date} {N : Nat} {t : Row}
    (h : t ∈ (selectTasksForToday rows d N).critical ∨
         t ∈ (selectTasksForToday rows d N).important ∨
         t ∈ (selectTasksForToday rows d N).quick_wins) :
    t ∈ eligibleTodos rows := by
  rw [selectTasksForToday_eq] at h
  split at h
  · simp at h
  · split at h
    · rcases h with h | h | h
      · exact selectCriticalTasks_subset (by simpa [rawBuckets] using h)
      · simp only at h
        split at h
        · exact selectImportantTasks_subset (by simpa [rawBuckets] using List.mem_of_mem_take h)
        · exact selectImportantTasks_subset (by simpa [rawBuckets] using h)
      · exact selectQuickWins_subset (by simpa [rawBuckets] using List.mem_of_mem_take h)
    · rcases h with h | h | h
      · exact selectCriticalTasks_subset (by simpa [rawBuckets] using h)
      · exact selectImportantTasks_subset (by simpa [rawBuckets] using h)
      · exact selectQuickWins_subset (by simpa [rawBuckets] using h)

/-- C8.  A task whose `skipped_count` is 5 or more is selected into none of
the three buckets, whatever its priority, tags, or notes. -/
theorem C8_skip_exclusion (rows : List Row) (d : Date) (N : Nat) (t : Row)
    (hskip : (5 : Int) ≤ t.skipped_count.getD 0) :
    t ∉ (selectTasksForToday rows d N).critical ∧
    t ∉ (selectTasksForToday rows d N).important ∧
    t ∉ (selectTasksForToday rows d N).quick_wins := by
  refine ⟨fun hm => ?_, fun hm => ?_, fun hm => ?_⟩
  all_goals {
    first
    | have helig := mem_selectTasksForToday (Or.inl hm)
    | have helig := mem_selectTasksForToday (Or.inr (Or.inl hm))
    | have helig := mem_selectTasksForToday (Or.inr (Or.inr hm))
    unfold eligibleTodos at helig
    have hlt := (List.mem_filter.mp helig).2
    simp only [decide_eq_true_eq] at hlt
    omega
  }

/-- Concrete backlog row for the C8 witness: an active high-priority task
already skipped five times. -/
def c8row : Row :=
  { id := 9, title := "Stuck task", priority := "high", notes := some "[Deadline] urgent",
    time_estimate := some 5, skipped_count := some 5, created_at := "2025-01-01",
    status := "active" }

/-- Witness for C8 at a concrete input. -/
theorem C8_skip_exclusion_witness :
    c8row ∉ (selectTasksForToday [c8row] ⟨2025, 11, 7⟩ 5).critical ∧
    c8row ∉ (selectTasksForToday [c8row] ⟨2025, 11, 7⟩ 5).important ∧
    c8row ∉ (selectTasksForToday [c8row] ⟨2025, 11, 7⟩ 5).quick_wins :=
  C8_skip_exclusion [c8row] ⟨2025, 11, 7⟩ 5 c8row (by decide)

/-- C10.  `backlog_count` is the number of `status = 'active'` rows fetched
from the store, before the `skipped_count` filter: stuck tasks are still
counted, rows of any other status (e.g. completed) never are. -/
theorem C10_backlog_count (rows : List Row) (d : Date) (N : Nat) :
    (selectTasksForToday rows d N).backlog_count =
      (rows.filter (fun r => r.status == "active")).length := by
  rw [selectTasksForToday_eq]
  split
  · next hempt =>
    have : fetchActiveTodos rows = [] := by
      cases h2 : fetchActiveTodos rows with
      | nil => rfl
      | cons a l => rw [h2] at hempt; simp [List.isEmpty] at hempt
    have hlen : (fetchActiveTodos rows).length = 0 := by rw [this]; rfl
    unfold fetchActiveTodos at hlen
    rw [length_pySort] at hlen
    simp [hlen]
  · split <;> (simp only []; unfold fetchActiveTodos; rw [length_pySort])

/-- Concrete backlog row for the C3 counterexample and witness: one active
high-priority task (it becomes the critical pick). -/
def c3row : Row :=
  { id := 1, title := "A", priority := "high", notes := none,
    time_estimate := none, skipped_count := some 0, created_at := "2025-01-01",
    status := "active" }

/-- Counterexample to C3 as stated: with `maxTasks = 0` and a backlog whose
critical bucket is non-empty, the selection returns 1 task in total —
exceeding `maxTasks` — because the critical bucket is never trimmed. -/
theorem C3_counterexample :
    (selectTasksForToday [c3row] ⟨2025, 11, 7⟩ 0).critical.length +
      (selectTasksForToday [c3row] ⟨2025, 11, 7⟩ 0).important.length +
      (selectTasksForToday [c3row] ⟨2025, 11, 7⟩ 0).quick_wins.length = 1 ∧
    ¬ (1 ≤ 0) := by
  constructor
  · decide
  · omega

/-- C3 (amended: for `maxTasks = N ≥ 1`).  The buckets respect
critical ≤ 1, important ≤ 2, quick-wins ≤ 3 and total ≤ N; the critical
bucket is returned untrimmed, important and quick-wins are returned as
prefixes of their untrimmed selections (trimming drops from the tail), and
whenever the important bucket was trimmed at all, the quick-wins bucket
was already trimmed to empty — so quick-wins are trimmed first, then
important, and critical never. -/
theorem C3_caps_amended (rows : List Row) (d : Date) (N : Nat) (hN : 1 ≤ N) :
    (selectTasksForToday rows d N).critical.length +
        (selectTasksForToday rows d N).important.length +
        (selectTasksForToday rows d N).quick_wins.length ≤ N ∧
    (selectTasksForToday rows d N).critical.length ≤ 1 ∧
    (selectTasksForToday rows d N).important.length ≤ 2 ∧
    (selectTasksForToday rows d N).quick_wins.length ≤ 3 ∧
    ((fetchActiveTodos rows).isEmpty = false →
      (selectTasksForToday rows d N).critical = (rawBuckets rows d).1) ∧
    (∃ k, (selectTasksForToday rows d N).important = (rawBuckets rows d).2.1.take k) ∧
    (∃ k, (selectTasksForToday rows d N).quick_wins = (rawBuckets rows d).2.2.take k) ∧
    ((selectTasksForToday rows d N).important ≠ (rawBuckets rows d).2.1 →
      (selectTasksForToday rows d N).quick_wins = []) := by
  have hc : (rawBuckets rows d).1.length ≤ 1 := selectCriticalTasks_length _ _
  have hi : (rawBuckets rows d).2.1.length ≤ 2 := selectImportantTasks_length _ _ _
  have hq : (rawBuckets rows d).2.2.length ≤ 3 := selectQuickWins_length _ _ _
  rw [selectTasksForToday_eq]
  split
  · refine ⟨by simp, by simp, by simp, by simp, by simp_all, ⟨0, by simp⟩,
      ⟨0, by simp⟩, ?_⟩
    intro hne
    simp
  · next hemp =>
    split
    · next htrim =>
      split
      · next htrim2 =>
        refine ⟨?_, hc, ?_, ?_, fun _ => rfl, ⟨_, rfl⟩, ⟨_, rfl⟩, fun _ => ?_⟩
        · have h1 := List.length_take_le (N - (rawBuckets rows d).1.length)
            (rawBuckets rows d).2.1
          have h2 := List.length_take_le
            (N - (rawBuckets rows d).1.length - (rawBuckets rows d).2.1.length)
            (rawBuckets rows d).2.2
          simp only []
          omega
        · simp only []
          have := List.length_take_le (N - (rawBuckets rows d).1.length)
            (rawBuckets rows d).2.1
          omega
        · simp only []
          have := List.length_take_le
            (N - (rawBuckets rows d).1.length - (rawBuckets rows d).2.1.length)
            (rawBuckets rows d).2.2
          omega
        · simp only []
          have hz : N - (rawBuckets rows d).1.length - (rawBuckets rows d).2.1.length = 0 := by
            omega
          rw [hz]
          rfl
      · next htrim2 =>
        refine ⟨?_, hc, hi, ?_, fun _ => rfl, ⟨(rawBuckets rows d).2.1.length, ?_⟩,
          ⟨_, rfl⟩, fun hne => absurd rfl hne⟩
        · have h2 := List.length_take_le
            (N - (rawBuckets rows d).1.length - (rawBuckets rows d).2.1.length)
            (rawBuckets rows d).2.2
          have h2b := List.length_take
            (N - (rawBuckets rows d).1.length - (rawBuckets rows d).2.1.length)
            (rawBuckets rows d).2.2
          simp only []
          omega
        · simp only []
          have := List.length_take_le
            (N - (rawBuckets rows d).1.length - (rawBuckets rows d).2.1.length)
            (rawBuckets rows d).2.2
          omega
        · simp only []
          rw [List.take_length]
    · next htrim =>
      exact ⟨by simp only []; omega, hc, hi, hq, fun _ => rfl,
        ⟨(rawBuckets rows d).2.1.length, by simp [List.take_length]⟩,
        ⟨(rawBuckets rows d).2.2.length, by simp [List.take_length]⟩,
        fun hne => absurd rfl hne⟩

/-- Witness for C3 (amended) at a concrete input. -/
theorem C3_caps_amended_witness :
    (selectTasksForToday [c3row] ⟨2025, 11, 7⟩ 5).critical.length +
        (selectTasksForToday [c3row] ⟨2025, 11, 7⟩ 5).important.length +
        (selectTasksForToday [c3row] ⟨2025, 11, 7⟩ 5).quick_wins.length ≤ 5 ∧
    (selectTasksForToday [c3row] ⟨2025, 11, 7⟩ 5).critical.length ≤ 1 ∧
    (selectTasksForToday [c3row] ⟨2025, 11, 7⟩ 5).important.length ≤ 2 ∧
    (selectTasksForToday [c3row] ⟨2025, 11, 7⟩ 5).quick_wins.length ≤ 3 ∧
    ((fetchActiveTodos [c3row]).isEmpty = false →
      (selectTasksForToday [c3row] ⟨2025, 11, 7⟩ 5).critical = (rawBuckets [c3row] ⟨2025, 11, 7⟩).1) ∧
    (∃ k, (selectTasksForToday [c3row] ⟨2025, 11, 7⟩ 5).important =
      (rawBuckets [c3row] ⟨2025, 11, 7⟩).2.1.take k) ∧
    (∃ k, (selectTasksForToday [c3row] ⟨2025, 11, 7⟩ 5).quick_wins =
      (rawBuckets [c3row] ⟨2025, 11, 7⟩).2.2.take k) ∧
    ((selectTasksForToday [c3row] ⟨2025, 11, 7⟩ 5).important ≠
        (rawBuckets [c3row] ⟨2025, 11, 7⟩).2.1 →
      (selectTasksForToday [c3row] ⟨2025, 11, 7⟩ 5).quick_wins = []) :=
  C3_caps_amended [c3row] ⟨2025, 11, 7⟩ 5 (by omega)

/-- The C5 scenario backlog: three active tasks with zero skips. -/
def c5row1 : Row :=
  { id := 1, title := "Write report", priority := "high",
    notes := some "[Deadline] due 11/07", time_estimate := none, skipped_count := some 0,
    created_at := "2025-11-01", status := "active" }

/-- Second C5 task. -/
def c5row2 : Row :=
  { id := 2, title := "File invoice", priority := "low",
    notes := some "[Quick Win]", time_estimate := some 10, skipped_count := some 0,
    created_at := "2025-11-02", status := "active" }

/-- Third C5 task. -/
def c5row3 : Row :=
  { id := 3, title := "Review PR", priority := "medium",
    notes := none, time_estimate := none, skipped_count := some 0,
    created_at := "2025-11-03", status := "active" }

set_option maxRecDepth 10000 in
/-- C5.  For the three-task backlog and target date 2025-11-07, selection
returns critical = [task 1] (its notes contain `11/07`, the `%m/%d`
rendering of the target date), important = [task 3] (medium-priority
fallback), quick_wins = [task 2] (`[Quick Win]` tag), and a backlog count
of 3. -/
theorem C5_end_to_end :
    selectTasksForToday [c5row1, c5row2, c5row3] ⟨2025, 11, 7⟩ 5 =
      { critical := [c5row1], important := [c5row3], quick_wins := [c5row2],
        backlog_count := 3 } ∧
    strIn (pad2 11 ++ "/" ++ pad2 7) (rowNotes c5row1) = true := by
  constructor
  · decide
  · decide

/-! ## Claims about the write discipline -/

theorem crash_writeTempRename {x : String} {st0 st : FsState}
    (h : CrashReachable [FsAct.writeTemp x, FsAct.renameTempToCanon] st0 st) :
    st.canonical = st0.canonical := by
  obtain ⟨k, hk, junk, hor⟩ := h
  have hk2 : k < 2 := by simpa using hk
  interval_cases k <;> rcases hor with h | h <;> subst h <;> rfl

/-- Counterexample to C2 as stated: the note-creation path of
`daily_notes._create_daily_note_with_tasks` writes the canonical path
directly (its plan holds no temp write and no rename), so a crash tearing
that write can leave partial content at a canonical path that held no note
before. -/
theorem C2_counterexample :
    createDailyNoteWithTasksPlan "# note" = [FsAct.writeCanon "# note"] ∧
    CrashReachable (createDailyNoteWithTasksPlan "# note") ⟨none, none⟩
      ⟨some "# torn content", none⟩ ∧
    (FsState.mk (some "# torn content") none).canonical ≠
      (FsState.mk none none).canonical := by
  refine ⟨rfl, ⟨0, by simp [createDailyNoteWithTasksPlan], "# torn content", Or.inr rfl⟩, by simp⟩

/-- C2 (amended: restricted to the `ObsidianVault` operations).  The vault
mutators — note creation via `create_daily_note`, section replace and
append via `write_to_section`, and `add_section` — write the complete new
content to the same-directory `.tmp` sibling and rename it over the
canonical path, so any crash before the rename leaves the canonical path's
content exactly as it was (in particular still absent if the note never
existed).  The creation path in `daily_notes._create_daily_note_with_tasks`
writes the canonical file directly and has no such guarantee. -/
theorem C2_vault_atomicity_amended (c body name nc : String) (app : Bool)
    (st0 st : FsState) :
    (CrashReachable (createDailyNotePlan c) st0 st → st.canonical = st0.canonical) ∧
    (CrashReachable (addSectionPlan c) st0 st → st.canonical = st0.canonical) ∧
    (CrashReachable (writeToSectionPlan body name nc app) st0 st →
      st.canonical = st0.canonical) := by
  refine ⟨fun h => crash_writeTempRename h, fun h => crash_writeTempRename h, fun h => ?_⟩
  unfold writeToSectionPlan at h
  split at h
  · exact crash_writeTempRename h
  · obtain ⟨k, hk, _, _⟩ := h
    simp at hk

/-- Witness for C2 (amended) at a concrete input: crashing right after the
temp write of `create_daily_note` leaves the canonical path absent. -/
theorem C2_vault_atomicity_witness :
    (FsState.mk none (some "x")).canonical = (FsState.mk none none).canonical :=
  (C2_vault_atomicity_amended "x" "" "" "" false ⟨none, none⟩ ⟨none, some "x"⟩).1
    ⟨1, by simp [createDailyNotePlan], "j", Or.inl rfl⟩

/-! ## Claims about fuzzy matching -/

theorem fuzzyGo_first_match (cb : String) (pre post : List (Int × String))
    (p : Int × String) (hpre : ∀ q ∈ pre, exactOrSub cb q = false)
    (hp : exactOrSub cb p = true) :
    ∀ best bid, fuzzyGo cb (pre ++ p :: post) best bid = some p.1 := by
  induction pre with
  | nil =>
    intro best bid
    obtain ⟨tid, title⟩ := p
    by_cases hc : (cb == pyStrip (pyLower title)) = true
    · simp [fuzzyGo, hc]
    · simp only [exactOrSub, Bool.or_eq_true, beq_iff_eq] at hp
      have hsub : (strIn cb (pyStrip (pyLower title)) ||
          strIn (pyStrip (pyLower title)) cb) = true := by
        rcases hp with (h | h) | h
        · exact absurd (by simp [h]) hc
        · simp [h]
        · simp [h]
      simp [fuzzyGo, hc, hsub]
  | cons q rest ih =>
    intro best bid
    have hq := hpre q (List.mem_cons_self _ _)
    have hrest : ∀ r ∈ rest, exactOrSub cb r = false :=
      fun r hr => hpre r (List.mem_cons_of_mem _ hr)
    obtain ⟨qid, qtitle⟩ := q
    simp only [exactOrSub, Bool.or_eq_false_iff] at hq
    simp only [List.cons_append, fuzzyGo]
    rw [if_neg (by simp [hq.1.1]), if_neg (by simp [hq.1.2, hq.2])]
    split <;> exact ih hrest _ _

/-- Counterexample to C1 as stated: in `[(1, "ab"), (2, "abc")]` the
candidate with id 2 matches the checkbox text `"abc"` exactly, yet the
match returns id 1, because the single pass hits candidate 1's substring
match first — the exact-equality tier is not applied across all
candidates before the substring tier. -/
theorem C1_counterexample :
    pyStrip (pyLower "abc") = pyStrip (pyLower (Prod.snd ((2 : Int), "abc"))) ∧
    fuzzyMatchTask "abc" [(1, "ab"), (2, "abc")] = some 1 ∧
    some (1 : Int) ≠ some (2 : Int) := by
  refine ⟨rfl, by decide, by decide⟩

/-- C1 (amended).  `_fuzzy_match_task` performs one pass in candidate
order, checking exact equality and then substring containment per
candidate: the first candidate that matches exactly or by substring is
returned, whatever the titles or similarity scores of later candidates.
Similarity is consulted only when no candidate matches exactly or by
substring; in particular an exact title match is returned even when other
candidates have higher similarity, provided no earlier candidate is an
exact or substring match. -/
theorem C1_first_match_amended (checkbox : String) (pre post : List (Int × String))
    (p : Int × String)
    (hpre : ∀ q ∈ pre, exactOrSub (pyStrip (pyLower checkbox)) q = false)
    (hp : exactOrSub (pyStrip (pyLower checkbox)) p = true) :
    fuzzyMatchTask checkbox (pre ++ p :: post) = some p.1 :=
  fuzzyGo_first_match (pyStrip (pyLower checkbox)) pre post p hpre hp (0, 1) none

/-- Witness for C1 (amended) at a concrete input: the exact match `"abc"`
is returned past the non-matching candidate 5, whatever follows it. -/
theorem C1_first_match_witness :
    fuzzyMatchTask "abc" [(5, "xyzq"), (2, "abc"), (9, "abz")] = some 2 :=
  C1_first_match_amended "abc" [(5, "xyzq")] [(9, "abz")] (2, "abc")
    (by decide) (by decide)

/-- The rational value of a fraction pair. -/
def fval (x : Nat × Nat) : ℚ := (x.1 : ℚ) / (x.2 : ℚ)

theorem simParts_den_pos (a b : List Char) : 0 < (simParts a b).2 := by
  unfold simParts
  split
  · simp
  · next h => simpa using Nat.pos_of_ne_zero h

theorem fracLt_iff {x y : Nat × Nat} (hx : 0 < x.2) (hy : 0 < y.2) :
    fracLt x y = true ↔ fval x < fval y := by
  unfold fracLt fval
  rw [div_lt_div_iff₀ (by exact_mod_cast hx) (by exact_mod_cast hy), decide_eq_true_eq]
  constructor <;> intro h <;> exact_mod_cast h

theorem fracLt_false_iff {x y : Nat × Nat} (hx : 0 < x.2) (hy : 0 < y.2) :
    fracLt x y = false ↔ fval y ≤ fval x := by
  rw [← Bool.not_eq_true, fracLt_iff hx hy, not_lt]

theorem fuzzyGo_none_iff (cb : String) :
    ∀ (todos : List (Int × String)) (best : Nat × Nat) (bid : Option Int),
      (∀ p ∈ todos, exactOrSub cb p = false) → 0 < best.2 →
      (bid = none → fracLt (7, 10) best = false) →
      (fuzzyGo cb todos best bid = none ↔
        fval best ≤ 7 / 10 ∧
          ∀ p ∈ todos, fval (simParts cb.toList (pyStrip (pyLower p.2)).toList) ≤ 7 / 10) := by
  intro todos
  induction todos with
  | nil =>
    intro best bid hns hpos hbid
    have h710 : fval (7, 10) = 7 / 10 := by norm_num [fval]
    simp only [fuzzyGo, List.not_mem_nil, false_implies, implies_true, and_true]
    split
    · next ht =>
      cases bid with
      | none => exact absurd ht (by simp [hbid rfl])
      | some j =>
        have hgt := (fracLt_iff (by norm_num) hpos).mp ht
        rw [h710] at hgt
        simp only [reduceCtorEq, false_iff, not_le]
        exact hgt
    · next ht =>
      have hf : fracLt (7, 10) best = false := by
        revert ht
        cases fracLt (7, 10) best <;> simp
      have hle := (fracLt_false_iff (by norm_num) hpos).mp hf
      rw [h710] at hle
      simp [hle]
  | cons p rest ih =>
    intro best bid hns hpos hbid
    have hp := hns p (List.mem_cons_self _ _)
    have hrest : ∀ q ∈ rest, exactOrSub cb q = false :=
      fun q hq => hns q (List.mem_cons_of_mem _ hq)
    obtain ⟨tid, title⟩ := p
    simp only [exactOrSub, Bool.or_eq_false_iff] at hp
    simp only [fuzzyGo]
    rw [if_neg (by simp [hp.1.1]), if_neg (by simp [hp.1.2, hp.2])]
    have hrpos := simParts_den_pos cb.toList (pyStrip (pyLower title)).toList
    split
    · next hlt =>
      have hbl := (fracLt_iff hpos hrpos).mp hlt
      rw [ih _ _ hrest hrpos (by simp)]
      simp only [List.mem_cons, forall_eq_or_imp]
      constructor
      · rintro ⟨h1, h2⟩
        exact ⟨le_of_lt (lt_of_lt_of_le hbl h1), h1, h2⟩
      · rintro ⟨h0, h1, h2⟩
        exact ⟨h1, h2⟩
    · next hge =>
      have hble := (fracLt_false_iff hpos hrpos).mp (by
        cases h : fracLt best (simParts cb.toList (pyStrip (pyLower title)).toList)
        · rfl
        · exact absurd h hge)
      rw [ih _ _ hrest hpos hbid]
      simp only [List.mem_cons, forall_eq_or_imp]
      constructor
      · rintro ⟨h1, h2⟩
        exact ⟨h1, le_trans hble h1, h2⟩
      · rintro ⟨h0, h1, h2⟩
        exact ⟨h0, h2⟩

theorem fuzzyGo_some_argmax (cb : String) :
    ∀ (todos : List (Int × String)) (best : Nat × Nat) (bid : Option Int) (i : Int),
      (∀ p ∈ todos, exactOrSub cb p = false) → 0 < best.2 →
      fuzzyGo cb todos best bid = some i →
      (bid = some i ∧
        ∀ p ∈ todos, fval (simParts cb.toList (pyStrip (pyLower p.2)).toList) ≤ fval best) ∨
      (∃ p ∈ todos, p.1 = i ∧
        7 / 10 < fval (simParts cb.toList (pyStrip (pyLower p.2)).toList) ∧
        fval best < fval (simParts cb.toList (pyStrip (pyLower p.2)).toList) ∧
        ∀ q ∈ todos, fval (simParts cb.toList (pyStrip (pyLower q.2)).toList) ≤
          fval (simParts cb.toList (pyStrip (pyLower p.2)).toList)) := by
  intro todos
  induction todos with
  | nil =>
    intro best bid i hns hpos hsome
    simp only [fuzzyGo] at hsome
    split at hsome
    · exact Or.inl ⟨hsome, by simp⟩
    · exact absurd hsome (by simp)
  | cons p rest ih =>
    intro best bid i hns hpos hsome
    have hp := hns p (List.mem_cons_self _ _)
    have hrest : ∀ q ∈ rest, exactOrSub cb q = false :=
      fun q hq => hns q (List.mem_cons_of_mem _ hq)
    obtain ⟨tid, title⟩ := p
    simp only [exactOrSub, Bool.or_eq_false_iff] at hp
    simp only [fuzzyGo] at hsome
    rw [if_neg (by simp [hp.1.1]), if_neg (by simp [hp.1.2, hp.2])] at hsome
    have hrpos := simParts_den_pos cb.toList (pyStrip (pyLower title)).toList
    have h710 : fval (7, 10) = 7 / 10 := by norm_num [fval]
    split at hsome
    · next hlt =>
      have hbl := (fracLt_iff hpos hrpos).mp hlt
      rcases ih _ _ i hrest hrpos hsome with ⟨hbid, hall⟩ | ⟨q, hq, hqi, hq7, hqgt, hqmax⟩
      · -- the new best (tid, score p) survived: return the right disjunct with p
        refine Or.inr ⟨(tid, title), List.mem_cons_self _ _, Option.some.inj hbid, ?_, hbl, ?_⟩
        · -- 7/10 < score p: from the final threshold check inside the recursion
          -- the recursion returned some, so the final check passed with best = score p
          -- and all later scores ≤ score p; recover via none-characterization:
          by_contra hnot
          push_neg at hnot
          have hnone := (fuzzyGo_none_iff cb rest _ (some tid) hrest hrpos (by simp)).mpr
            ⟨hnot, fun q hq => le_trans (hall q hq) hnot⟩
          rw [hnone] at hsome
          exact absurd hsome (by simp)
        · intro q hq
          rcases List.mem_cons.mp hq with rfl | hq2
          · exact le_refl _
          · exact hall q hq2
      · refine Or.inr ⟨q, List.mem_cons_of_mem _ hq, hqi, hq7, lt_trans hbl hqgt, ?_⟩
        intro r hr
        rcases List.mem_cons.mp hr with rfl | hr2
        · exact le_of_lt hqgt
        · exact hqmax r hr2
    · next hge =>
      have hble := (fracLt_false_iff hpos hrpos).mp (by
        cases h : fracLt best (simParts cb.toList (pyStrip (pyLower title)).toList)
        · rfl
        · exact absurd h hge)
      rcases ih _ _ i hrest hpos hsome with ⟨hbid, hall⟩ | ⟨q, hq, hqi, hq7, hqgt, hqmax⟩
      · refine Or.inl ⟨hbid, ?_⟩
        intro q hq
        rcases List.mem_cons.mp hq with rfl | hq2
        · exact hble
        · exact hall q hq2
      · refine Or.inr ⟨q, List.mem_cons_of_mem _ hq, hqi, hq7, hqgt, ?_⟩
        intro r hr
        rcases List.mem_cons.mp hr with rfl | hr2
        · exact le_trans hble (le_of_lt hqgt)
        · exact hqmax r hr2

theorem simScore_eq_fval (a b : List Char) : simScore a b = fval (simParts a b) := rfl

/-- C9.  When no candidate matches exactly or by substring, the similarity
acceptance is strict at `0.70`: the match returns nothing precisely when
every candidate's ratio is at most `7/10` (so a best ratio of exactly
`0.70` or of `0.69` yields none), and whenever it returns an id, that id
belongs to a candidate whose ratio strictly exceeds `7/10` and is maximal
among all candidates (so a best ratio of `0.71` yields that candidate). -/
theorem C9_threshold_strict (checkbox : String) (todos : List (Int × String))
    (hns : ∀ p ∈ todos, exactOrSub (pyStrip (pyLower checkbox)) p = false) :
    (fuzzyMatchTask checkbox todos = none ↔
      ∀ p ∈ todos,
        simScore (pyStrip (pyLower checkbox)).toList (pyStrip (pyLower p.2)).toList ≤ 7 / 10) ∧
    (∀ i, fuzzyMatchTask checkbox todos = some i →
      ∃ p ∈ todos, p.1 = i ∧
        7 / 10 < simScore (pyStrip (pyLower checkbox)).toList (pyStrip (pyLower p.2)).toList ∧
        ∀ q ∈ todos,
          simScore (pyStrip (pyLower checkbox)).toList (pyStrip (pyLower q.2)).toList ≤
            simScore (pyStrip (pyLower checkbox)).toList (pyStrip (pyLower p.2)).toList) := by
  constructor
  · have h := fuzzyGo_none_iff (pyStrip (pyLower checkbox)) todos (0, 1) none hns
      (by norm_num) (fun _ => by decide)
    rw [fuzzyMatchTask, h]
    have : fval (0, 1) = 0 := by norm_num [fval]
    rw [this]
    simp only [simScore_eq_fval]
    constructor
    · exact fun hh => hh.2
    · exact fun hh => ⟨by norm_num, hh⟩
  · intro i hsome
    rcases fuzzyGo_some_argmax (pyStrip (pyLower checkbox)) todos (0, 1) none i hns
      (by norm_num) hsome with ⟨hbid, _⟩ | ⟨p, hp, hpi, hp7, _, hpmax⟩
    · exact absurd hbid (by simp)
    · exact ⟨p, hp, hpi, by rw [simScore_eq_fval]; exact hp7,
        fun q hq => by rw [simScore_eq_fval, simScore_eq_fval]; exact hpmax q hq⟩

set_option maxRecDepth 40000 in
/-- Witness for C9 at a concrete input whose only candidate has ratio
exactly `7/10` (`M = 7`, lengths `10 + 10`): the hypothesis holds (no
exact or substring match), the ratio equals the threshold, and the match
returns none — the threshold is strict. -/
theorem C9_threshold_strict_witness :
    ((fuzzyMatchTask "aaaaaaaxyz" [(1, "aaaaaaapqr")] = none ↔
      ∀ p ∈ [((1 : Int), "aaaaaaapqr")],
        simScore (pyStrip (pyLower "aaaaaaaxyz")).toList (pyStrip (pyLower p.2)).toList ≤ 7 / 10) ∧
      (∀ i, fuzzyMatchTask "aaaaaaaxyz" [(1, "aaaaaaapqr")] = some i →
        ∃ p ∈ [((1 : Int), "aaaaaaapqr")], p.1 = i ∧
          7 / 10 < simScore (pyStrip (pyLower "aaaaaaaxyz")).toList (pyStrip (pyLower p.2)).toList ∧
          ∀ q ∈ [((1 : Int), "aaaaaaapqr")],
            simScore (pyStrip (pyLower "aaaaaaaxyz")).toList (pyStrip (pyLower q.2)).toList ≤
              simScore (pyStrip (pyLower "aaaaaaaxyz")).toList (pyStrip (pyLower p.2)).toList)) ∧
    simScore (pyStrip (pyLower "aaaaaaaxyz")).toList (pyStrip (pyLower "aaaaaaapqr")).toList = 7 / 10 ∧
    fuzzyMatchTask "aaaaaaaxyz" [(1, "aaaaaaapqr")] = none := by
  refine ⟨C9_threshold_strict "aaaaaaaxyz" [(1, "aaaaaaapqr")] (by decide), ?_, by decide⟩
  have hp : simParts (pyStrip (pyLower "aaaaaaaxyz")).toList
      (pyStrip (pyLower "aaaaaaapqr")).toList = (14, 20) := by decide
  rw [simScore_eq_fval, hp]
  norm_num [fval]

/-! ## Claims about sections -/

/-- A body contains a heading matching `section_pattern` for `name`. -/
def hasSectionHeading (body name : String) : Bool :=
  (strLines body).any (matchesSectionHeading name)

theorem wtsGo_collect_found (name c : String) (app : Bool) :
    ∀ (lines : List String) (acc : List String),
      (wtsGo name c app lines (some acc)).2 = true := by
  intro lines
  induction lines with
  | nil => intro acc; rfl
  | cons l rest ih =>
    intro acc
    simp only [wtsGo]
    split
    · exact ih (acc ++ [l])
    · split <;> rfl

theorem wtsGo_found_iff (name c : String) (app : Bool) :
    ∀ lines : List String,
      (wtsGo name c app lines none).2 = lines.any (matchesSectionHeading name) := by
  intro lines
  induction lines with
  | nil => rfl
  | cons l rest ih =>
    simp only [wtsGo, List.any_cons]
    split
    · next h => simp [h]
    · next h =>
      simp only [Bool.false_or, ← ih]
      simp [h]

/-- C6.  `write_to_section` fails — returning an unsuccessful result and
writing nothing (its plan is empty, and running an empty plan changes no
file) — exactly when no heading in the note matches the requested section;
and on the `## Notes` note whose section body is `old`, appending `new`
yields the section body `old`, one blank line, `new`, while replacing
yields exactly `new`. -/
theorem C6_replace_append :
    (∀ body name c app, writeToSection body name c app = none ↔
      hasSectionHeading body name = false) ∧
    (∀ body name c app, writeToSectionPlan body name c app = [] ↔
      writeToSection body name c app = none) ∧
    (∀ st : FsState, runPlan [] st = st) ∧
    writeToSection "## Notes\n\nold\n" "Notes" "new" true = some "## Notes\n\nold\n\nnew" ∧
    extractSection "## Notes\n\nold\n\nnew" "Notes" = some (strJoin ["old", "", "new"]) ∧
    writeToSection "## Notes\n\nold\n" "Notes" "new" false = some "## Notes\nnew" ∧
    extractSection "## Notes\nnew" "Notes" = some "new" := by
  refine ⟨?_, ?_, fun st => rfl, by decide, by decide, by decide, by decide⟩
  · intro body name c app
    simp only [writeToSection, writeToSectionLines, hasSectionHeading]
    rw [wtsGo_found_iff]
    split
    · next h => simp [h]
    · next h =>
      simp only [Bool.not_eq_true] at h
      simp [h]
  · intro body name c app
    unfold writeToSectionPlan
    split
    · next h => simp [h]
    · next h => simp [h]

/-- Counterexample to C4 as stated: in a note with two identical `## Notes`
headings, the single-section lookup returns the first body, but the full
section-map parse returns the second — for the map, the last occurrence
wins, not the first. -/
theorem C4_counterexample :
    extractSection "## Notes\nfirst\n## Notes\nsecond" "Notes" = some "first" ∧
    dictLookup "Notes" (parseAllSections "## Notes\nfirst\n## Notes\nsecond") = some "second" ∧
    some ("second" : String) ≠ some ("first" : String) := by
  refine ⟨by decide, by decide, by decide⟩

/-- Does the line start with two `#` characters?  (Lines that do not can
neither be headings nor section boundaries.) -/
def isHashHash (l : String) : Bool :=
  match l.toList with
  | '#' :: '#' :: _ => true
  | _ => false

theorem boundary_of_matches {name l : String} (h : matchesSectionHeading name l = true)
    (rest : List String) : sectionBoundary l rest = true := by
  unfold matchesSectionHeading at h
  split at h
  · next heq =>
    unfold sectionBoundary
    rw [heq]
    exact (Bool.and_eq_true .. ▸ h).1
  · exact absurd h (by simp)

theorem not_boundary_of_not_hashhash {l : String} (h : isHashHash l = false)
    (rest : List String) : sectionBoundary l rest = false := by
  unfold isHashHash at h
  split at h
  · exact absurd h (by simp)
  · rename_i hne
    unfold sectionBoundary
    split
    · rename_i heq
      exact (hne _ heq).elim
    · rename_i heq
      exact (hne _ heq).elim
    · rfl

theorem headingName_none_of_not_hashhash {l : String} (h : isHashHash l = false) :
    headingName l = none := by
  unfold isHashHash at h
  split at h
  · exact absurd h (by simp)
  · rename_i hne
    unfold headingName
    split
    · rename_i heq
      exact (hne _ heq).elim
    · rfl

theorem sectionBlock_stops {h2 : String} {b2 : List String} (hb : sectionBoundary h2 b2 = true) :
    ∀ b1 : List String, (∀ l ∈ b1, isHashHash l = false) →
      sectionBlock (b1 ++ h2 :: b2) = b1 := by
  intro b1
  induction b1 with
  | nil =>
    intro _
    have hrw : sectionBlock (h2 :: b2) =
        if sectionBoundary h2 b2 then [] else h2 :: sectionBlock b2 := rfl
    rw [List.nil_append, hrw, hb]
    simp
  | cons l b ih =>
    intro hall
    have hl := hall l (List.mem_cons_self _ _)
    simp only [List.cons_append, sectionBlock]
    rw [not_boundary_of_not_hashhash hl]
    simp only [Bool.false_eq_true, if_false, List.append_eq]
    rw [ih (fun x hx => hall x (List.mem_cons_of_mem _ hx))]

theorem truthy_of_ne {k : String} (h : k ≠ "") : truthyStr (some k) = true := by
  cases k with
  | mk data =>
    cases data with
    | nil => exact absurd rfl h
    | cons c cs => simp [truthyStr]

theorem parseAllAux_skip :
    ∀ (b rest : List String) (cur : Option String) (acc : List String)
      (secs : List (String × String)),
      (∀ l ∈ b, headingName l = none) → truthyStr cur = true →
      parseAllAux (b ++ rest) cur acc secs = parseAllAux rest cur (acc ++ b) secs := by
  intro b
  induction b with
  | nil => intro rest cur acc secs _ _; simp
  | cons l b ih =>
    intro rest cur acc secs hall ht
    have hl := hall l (List.mem_cons_self _ _)
    simp only [List.cons_append, parseAllAux, hl, ht, List.append_eq, if_true]
    rw [ih rest cur (acc ++ [l]) secs (fun x hx => hall x (List.mem_cons_of_mem _ hx)) ht]
    simp

/-- C4 (amended).  For a note whose lines are a heading for `name`, a first
body `b1`, a second heading for the same normalized (and, for the map, the
same verbatim key `k`) name, and a second body `b2`: the single-section
lookup `_extract_section` returns the body of the first occurrence, while
the section map `_parse_all_sections` holds the body of the last
occurrence under `k` — the first occurrence wins only for the single
lookup; in the map, later duplicates overwrite earlier ones. -/
theorem C4_first_vs_last_amended (name k h1 h2 : String) (b1 b2 : List String)
    (hm1 : matchesSectionHeading name h1 = true)
    (hm2 : matchesSectionHeading name h2 = true)
    (hk1 : headingName h1 = some k) (hk2 : headingName h2 = some k) (hk : k ≠ "")
    (hb1 : ∀ l ∈ b1, isHashHash l = false) (hb2 : ∀ l ∈ b2, isHashHash l = false) :
    extractSectionLines (h1 :: (b1 ++ h2 :: b2)) name = some (joinStrip b1) ∧
    dictLookup k (parseAllAux (h1 :: (b1 ++ h2 :: b2)) none [] []) = some (joinStrip b2) := by
  have ht : truthyStr (some k) = true := truthy_of_ne hk
  constructor
  · unfold extractSectionLines
    have hlen : ¬ ((h1 :: (b1 ++ h2 :: b2)).length ≤ 0 + 1) := by
      simp [List.length_append]
    simp only [List.findIdx?_cons, hm1, if_true]
    rw [if_neg hlen, List.drop_succ_cons, List.drop_zero]
    rw [sectionBlock_stops (boundary_of_matches hm2 b2) b1 hb1]
  · have e1 : parseAllAux (h1 :: (b1 ++ h2 :: b2)) none [] [] =
        parseAllAux (b1 ++ h2 :: b2) (some k) [] [] := by
      simp [parseAllAux, hk1, truthyStr]
    rw [e1,
      parseAllAux_skip b1 (h2 :: b2) (some k) [] []
        (fun l hl => headingName_none_of_not_hashhash (hb1 l hl)) ht]
    have e2 : parseAllAux (h2 :: b2) (some k) ([] ++ b1) [] =
        parseAllAux (b2 ++ []) (some k) [] (dictInsert k (joinStrip b1) []) := by
      simp [parseAllAux, hk2, ht]
    rw [e2,
      parseAllAux_skip b2 [] (some k) [] (dictInsert k (joinStrip b1) [])
        (fun l hl => headingName_none_of_not_hashhash (hb2 l hl)) ht]
    have e3 : parseAllAux [] (some k) ([] ++ b2) (dictInsert k (joinStrip b1) []) =
        dictInsert k (joinStrip b2) (dictInsert k (joinStrip b1) []) := by
      simp [parseAllAux, ht]
    rw [e3]
    simp [dictInsert, dictLookup]

/-- Witness for C4 (amended) at a concrete input. -/
theorem C4_first_vs_last_witness :
    extractSectionLines ("## Notes" :: (["first"] ++ "## Notes" :: ["second"])) "Notes" =
      some (joinStrip ["first"]) ∧
    dictLookup "Notes"
        (parseAllAux ("## Notes" :: (["first"] ++ "## Notes" :: ["second"])) none [] []) =
      some (joinStrip ["second"]) :=
  C4_first_vs_last_amended "Notes" "Notes" "## Notes" "## Notes" ["first"] ["second"]
    (by decide) (by decide) (by decide) (by decide) (by decide) (by decide) (by decide)

/-! ## Claims about checkbox extraction -/

/-- The no-`#tag` adjacency invariant: every `#` is followed by a non-word
character (so no `#\w...` token can start there). -/
def noTagAdj (a b : Char) : Prop := a = '#' → isWordChar b = false

theorem dropWhile_head_false {p : Char → Bool} :
    ∀ {l : List Char} {a : Char} {t : List Char}, l.dropWhile p = a :: t → p a = false := by
  intro l
  induction l with
  | nil => intro a t h; simp at h
  | cons c cs ih =>
    intro a t h
    rw [List.dropWhile_cons] at h
    split at h
    · exact ih h
    · next hc =>
      cases h
      simpa using hc

theorem tagMatchRest_sub {cs r : List Char} (h : tagMatchRest cs = some r) :
    r.length < cs.length := by
  unfold tagMatchRest at h
  cases hdw : cs.dropWhile isPyWS with
  | nil => rw [hdw] at h; simp at h
  | cons x r2 =>
    rw [hdw] at h
    have hsfx : (x :: r2).length ≤ cs.length := by
      rw [← hdw]
      exact (List.dropWhile_suffix isPyWS).length_le
    simp only [] at h
    split at h
    · cases r2 with
      | nil => simp at h
      | cons d t2 =>
        simp only [] at h
        split at h
        · next hword =>
          have hr : r = ((d :: t2).dropWhile isWordChar).dropWhile isTagChar := by
            injection h with hh
            exact hh.symm
          have h1 : ((d :: t2).dropWhile isWordChar).length ≤ t2.length := by
            rw [List.dropWhile_cons, if_pos hword]
            exact (List.dropWhile_suffix isWordChar).length_le
          have h2 : r.length ≤ ((d :: t2).dropWhile isWordChar).length := by
            rw [hr]
            exact (List.dropWhile_suffix isTagChar).length_le
          simp only [List.length_cons] at hsfx
          omega
        · exact absurd h (by simp)
    · exact absurd h (by simp)

theorem tagMatchRest_head {cs r : List Char} (h : tagMatchRest cs = some r) :
    ∀ a t, r = a :: t → isWordChar a = false := by
  unfold tagMatchRest at h
  cases hdw : cs.dropWhile isPyWS with
  | nil => rw [hdw] at h; simp at h
  | cons x r2 =>
    rw [hdw] at h
    simp only [] at h
    split at h
    · cases r2 with
      | nil => simp at h
      | cons d t2 =>
        simp only [] at h
        split at h
        · intro a t hat
          have hr : r = ((d :: t2).dropWhile isWordChar).dropWhile isTagChar :=
            (Option.some.inj h).symm
          rw [hr] at hat
          have htag := dropWhile_head_false hat
          revert htag
          unfold isTagChar
          cases isWordChar a <;> simp
        · exact absurd h (by simp)
    · exact absurd h (by simp)

theorem tagMatchRest_none_head {cs : List Char} (h : tagMatchRest ('#' :: cs) = none) :
    ∀ a t, cs = a :: t → isWordChar a = false := by
  intro a t h2
  subst h2
  by_contra hw
  simp only [Bool.not_eq_false] at hw
  have heval : tagMatchRest ('#' :: a :: t) =
      some (((a :: t).dropWhile isWordChar).dropWhile isTagChar) := by
    unfold tagMatchRest
    have hws : ('#' :: a :: t).dropWhile isPyWS = '#' :: a :: t := by
      rw [List.dropWhile_cons]
      simp [isPyWS]
    rw [hws]
    simp [hw]
  rw [heval] at h
  simp at h

theorem subTagsF_head (fuel : Nat) :
    ∀ l : List Char, l.length ≤ fuel →
      (∀ a t, l = a :: t → isWordChar a = false) →
      ∀ a t, subTagsF fuel l = a :: t → isWordChar a = false := by
  induction fuel with
  | zero =>
    intro l hl hhead a t h
    cases l with
    | nil => simp [subTagsF] at h
    | cons => simp at hl
  | succ fuel ih =>
    intro l hl hhead a t h
    cases l with
    | nil => simp [subTagsF] at h
    | cons c cs =>
      simp only [subTagsF] at h
      split at h
      · next rest hrest =>
        refine ih rest ?_ (tagMatchRest_head hrest) a t h
        have := tagMatchRest_sub hrest
        simp only [List.length_cons] at hl this
        omega
      · injection h with h1 h2
        exact h1 ▸ hhead c cs rfl

theorem subTagsF_chain (fuel : Nat) :
    ∀ l : List Char, l.length ≤ fuel → List.Chain' noTagAdj (subTagsF fuel l) := by
  induction fuel with
  | zero =>
    intro l hl
    cases l with
    | nil => simp [subTagsF]
    | cons => simp at hl
  | succ fuel ih =>
    intro l hl
    cases l with
    | nil => simp [subTagsF]
    | cons c cs =>
      have hcs : cs.length ≤ fuel := by
        simp only [List.length_cons] at hl
        omega
      simp only [subTagsF]
      split
      · next rest hrest =>
        apply ih
        have := tagMatchRest_sub hrest
        simp only [List.length_cons] at hl this
        omega
      · next hnone =>
        rw [List.chain'_cons']
        refine ⟨?_, ih cs hcs⟩
        intro b hb hc
        subst hc
        have hheadcs := tagMatchRest_none_head hnone
        cases hsub : subTagsF fuel cs with
        | nil => rw [hsub] at hb; simp at hb
        | cons x xs =>
          rw [hsub] at hb
          simp only [List.head?_cons, Option.mem_def, Option.some.injEq] at hb
          subst hb
          exact subTagsF_head fuel cs hcs hheadcs x xs hsub

theorem findTagsF_nil_of_chain (fuel : Nat) :
    ∀ l : List Char, l.length ≤ fuel → List.Chain' noTagAdj l → findTagsF fuel l = [] := by
  induction fuel with
  | zero => intro l _ _; rfl
  | succ fuel ih =>
    intro l hl hch
    cases l with
    | nil => rfl
    | cons c cs =>
      have hcs : cs.length ≤ fuel := by
        simp only [List.length_cons] at hl
        omega
      have htail : List.Chain' noTagAdj cs := List.Chain'.tail hch
      simp only [findTagsF]
      split
      · next hc =>
        have hw1 : (cs.takeWhile isWordChar).isEmpty = true := by
          cases cs with
          | nil => rfl
          | cons d t =>
            have hd : isWordChar d = false :=
              (List.chain'_cons'.mp hch).1 d (by simp) hc
            rw [List.takeWhile_cons, hd]
            rfl
        rw [hw1]
        simp only [if_true]
        exact ih cs hcs htail
      · exact ih cs hcs htail

theorem chain_dropWhile {α : Type} {R : α → α → Prop} (p : α → Bool) :
    ∀ l : List α, List.Chain' R l → List.Chain' R (l.dropWhile p) := by
  intro l
  induction l with
  | nil => intro _; simp
  | cons c cs ih =>
    intro h
    rw [List.dropWhile_cons]
    split
    · exact ih (List.Chain'.tail h)
    · exact h

theorem chain_pyStrip {R : Char → Char → Prop} (l : List Char) (h : List.Chain' R l) :
    List.Chain' R (pyStripChars l) := by
  unfold pyStripChars rstripChars
  have h1 : List.Chain' R (l.dropWhile isPyWS) := chain_dropWhile isPyWS l h
  have h2 : List.Chain' (flip R) ((l.dropWhile isPyWS).reverse) :=
    List.chain'_reverse.mpr h1
  have h3 : List.Chain' (flip R) (((l.dropWhile isPyWS).reverse).dropWhile isPyWS) :=
    chain_dropWhile isPyWS _ h2
  exact List.chain'_reverse.mpr h3

theorem taskText_no_tags (l : List Char) :
    findTags (pyStrip (String.mk (subTagsChars l))) = [] := by
  show findTagsF (pyStripChars (subTagsChars l)).length (pyStripChars (subTagsChars l)) = []
  exact findTagsF_nil_of_chain _ _ (le_refl _)
    (chain_pyStrip _ (subTagsF_chain l.length l (le_refl _)))

theorem extractTasks_foldl (lines : List String) :
    ∀ acc : List TaskLine,
      lines.foldl
        (fun acc l =>
          match taskOfLine l with
          | some t => acc ++ [t]
          | none => acc)
        acc = acc ++ lines.filterMap taskOfLine := by
  induction lines with
  | nil => intro acc; simp
  | cons l rest ih =>
    intro acc
    cases htl : taskOfLine l with
    | none => simp [htl, ih, List.filterMap_cons]
    | some t => simp [htl, ih, List.filterMap_cons]

/-- C7.  The task extraction loop yields a Task-Line for exactly the lines
matching the checkbox syntax `- [ ] <text>` / `- [x] <text>` (applied to
the stripped line, case-sensitive on the `x`; other lines are skipped, not
an error); on `- [x] Buy milk #high-priority` it produces completed,
priority `high`, display text `Buy milk` and tags `[high-priority]`; and
no extracted task's display text contains a `#tag` token. -/
theorem C7_extract_tasks :
    (∀ s, extractTasksFromText s = (strLines s).filterMap taskOfLine) ∧
    extractTasksFromText "- [x] Buy milk #high-priority" =
      [{ text := "Buy milk", completed := true, priority := "high",
         tags := ["high-priority"], raw := "- [x] Buy milk #high-priority" }] ∧
    (∀ s t, t ∈ extractTasksFromText s → findTags t.text = []) := by
  have hfm : ∀ s, extractTasksFromText s = (strLines s).filterMap taskOfLine := by
    intro s
    unfold extractTasksFromText
    rw [extractTasks_foldl]
    simp
  refine ⟨hfm, by decide, ?_⟩
  intro s t ht
  rw [hfm] at ht
  obtain ⟨l, hl, htl⟩ := List.mem_filterMap.mp ht
  unfold taskOfLine at htl
  split at htl
  · next comp rest hparse =>
    cases Option.some.inj htl
    exact taskText_no_tags (pyStrip rest).toList
  · exact absurd htl (by simp)

/-- Witness for C7 at the concrete extracted task. -/
theorem C7_extract_tasks_witness :
    findTags (TaskLine.text
      { text := "Buy milk", completed := true, priority := "high",
        tags := ["high-priority"], raw := "- [x] Buy milk #high-priority" }) = [] :=
  C7_extract_tasks.2.2 "- [x] Buy milk #high-priority"
    { text := "Buy milk", completed := true, priority := "high",
      tags := ["high-priority"], raw := "- [x] Buy milk #high-priority" }
    (by decide)
